import Mathlib

/-!
Verification development for the hyperbloom engine.

The repository's visible source (`src/unnamed/part_000`, the HTTP boundary
layer, and `src/hyperbloom/internal/database/postgres/init.go`) is embedded
directly.  The `service` package (the per-key probabilistic summaries, the
combination engine and the durability coordinator) is not part of the visible
source; those components are modelled from the specification, as marked in
each doc comment.
-/

set_option autoImplicit false

/-- Modelled from the spec: a 32-bit FNV-1a string hash, standing in for the
deterministic base hash of the missing `service` package (spec §4.1: "a
deterministic hash family (e.g., one base hash plus k salted derivations, or
double hashing)"). -/
def hash32 (s : String) : Nat :=
  s.data.foldl (fun h c => ((h ^^^ c.toNat) * 16777619) % 4294967296) 2166136261

/-- Modelled from the spec: a second independent string hash (djb2) used as the
step of the double-hashing family. -/
def hash32b (s : String) : Nat :=
  s.data.foldl (fun h c => (h * 33 + c.toNat) % 4294967296) 5381

/-- Modelled from the spec: the family of `k` index-generating hash functions
producing positions in `[0, M)` by double hashing (spec §4.1). -/
def hashFamily (k M : Nat) (s : String) : List Nat :=
  (List.range k).map fun i => (hash32 s + i * hash32b s) % M

/-- Configuration of the engine: bloom filter size `m`, hash count `k`, and
the cardinality estimator's precision `p` (register count `2^p`).  The spec
leaves the constants open (§9), so they are parameters here. -/
structure Config where
  m : Nat
  k : Nat
  p : Nat
deriving DecidableEq

/-- Modelled from the spec: the BitFilter data model (spec §3): a fixed-length
bit vector together with its hash count `k`. -/
structure BitFilter where
  bits : List Bool
  hashCount : Nat
deriving DecidableEq

namespace BitFilter

/-- Modelled from the spec: a zero-state filter of the configured dimensions. -/
def emptyF (cfg : Config) : BitFilter :=
  ⟨List.replicate cfg.m false, cfg.k⟩

/-- The k positions the hash family assigns to a value for this filter. -/
def positions (f : BitFilter) (v : String) : List Nat :=
  hashFamily f.hashCount f.bits.length v

/-- Modelled from the spec: `Insert(value)` sets each of the k computed bit
positions (spec §4.1). -/
def insert (f : BitFilter) (v : String) : BitFilter :=
  ⟨(f.positions v).foldl (fun bs q => bs.set q true) f.bits, f.hashCount⟩

/-- Modelled from the spec: `Test(value)` re-computes the same k positions and
returns true only if all k bits are set (spec §4.1). -/
def test (f : BitFilter) (v : String) : Bool :=
  (f.positions v).all fun q => f.bits.getD q false

/-- Modelled from the spec: `PopCount()`, the number of set bits (spec §4.1). -/
def popCount (f : BitFilter) : Nat :=
  f.bits.count true

end BitFilter

/- List-level lemmas about setting and reading bits. -/

theorem getD_set_self :
    ∀ (bs : List Bool) (i : Nat), i < bs.length → (bs.set i true).getD i false = true := by
  intro bs
  induction bs with
  | nil => intro i h; simp at h
  | cons b tl ih =>
    intro i h
    cases i with
    | zero => rfl
    | succ j =>
      have hj : j < tl.length := by simpa using h
      simpa using ih j hj

theorem getD_set_mono :
    ∀ (bs : List Bool) (i j : Nat), bs.getD j false = true →
      (bs.set i true).getD j false = true := by
  intro bs
  induction bs with
  | nil => intro i j h; simp at h
  | cons b tl ih =>
    intro i j h
    cases i with
    | zero =>
      cases j with
      | zero => rfl
      | succ j' => simpa using h
    | succ i' =>
      cases j with
      | zero => simpa using h
      | succ j' =>
        have := ih i' j' (by simpa using h)
        simpa using this

theorem foldlSet_length :
    ∀ (L : List Nat) (bs : List Bool),
      (L.foldl (fun b q => b.set q true) bs).length = bs.length := by
  intro L
  induction L with
  | nil => intro bs; rfl
  | cons p tl ih =>
    intro bs
    simpa [List.foldl_cons, List.length_set] using ih (bs.set p true)

theorem foldlSet_mono :
    ∀ (L : List Nat) (bs : List Bool) (j : Nat), bs.getD j false = true →
      (L.foldl (fun b q => b.set q true) bs).getD j false = true := by
  intro L
  induction L with
  | nil => intro bs j h; simpa using h
  | cons p tl ih =>
    intro bs j h
    exact ih (bs.set p true) j (getD_set_mono bs p j h)

theorem foldlSet_sets :
    ∀ (L : List Nat) (bs : List Bool) (q : Nat), q ∈ L → q < bs.length →
      (L.foldl (fun b r => b.set r true) bs).getD q false = true := by
  intro L
  induction L with
  | nil => intro bs q hq; simp at hq
  | cons p tl ih =>
    intro bs q hq hlt
    rcases List.mem_cons.mp hq with h | h
    · subst h
      exact foldlSet_mono tl (bs.set q true) q (getD_set_self bs q hlt)
    · exact ih (bs.set p true) q h (by simpa [List.length_set] using hlt)

theorem getD_true_count_pos :
    ∀ (bs : List Bool) (j : Nat), bs.getD j false = true → 0 < bs.count true := by
  intro bs
  induction bs with
  | nil => intro j h; simp at h
  | cons b tl ih =>
    intro j h
    cases j with
    | zero =>
      simp only [List.getD_cons_zero] at h
      subst h
      simp [List.count_cons]
    | succ j' =>
      have := ih j' (by simpa using h)
      simp only [List.count_cons]
      omega

theorem zipWith_getD_or :
    ∀ (a b : List Bool), a.length = b.length → ∀ (i : Nat),
      (List.zipWith (fun x y => x || y) a b).getD i false
        = (a.getD i false || b.getD i false) := by
  intro a
  induction a with
  | nil =>
    intro b hb i
    cases b with
    | nil => simp
    | cons y tl => simp at hb
  | cons x tl ih =>
    intro b hb i
    cases b with
    | nil => simp at hb
    | cons y tl' =>
      cases i with
      | zero => rfl
      | succ i' =>
        have h' : tl.length = tl'.length := by simpa using hb
        simpa using ih tl' h' i'

theorem zipWith_or_comm :
    ∀ (a b : List Bool),
      List.zipWith (fun x y => x || y) a b = List.zipWith (fun x y => x || y) b a := by
  intro a
  induction a with
  | nil => intro b; cases b <;> rfl
  | cons x tl ih =>
    intro b
    cases b with
    | nil => rfl
    | cons y tl' => simp [List.zipWith_cons_cons, Bool.or_comm, ih tl']

theorem zipWith_and_comm :
    ∀ (a b : List Bool),
      List.zipWith (fun x y => x && y) a b = List.zipWith (fun x y => x && y) b a := by
  intro a
  induction a with
  | nil => intro b; cases b <;> rfl
  | cons x tl ih =>
    intro b
    cases b with
    | nil => rfl
    | cons y tl' => simp [List.zipWith_cons_cons, Bool.and_comm, ih tl']

theorem zipWith_and_self :
    ∀ (a : List Bool), List.zipWith (fun x y => x && y) a a = a := by
  intro a
  induction a with
  | nil => rfl
  | cons x tl ih => simp [List.zipWith_cons_cons, ih]

theorem zipWith_or_self :
    ∀ (a : List Bool), List.zipWith (fun x y => x || y) a a = a := by
  intro a
  induction a with
  | nil => rfl
  | cons x tl ih => simp [List.zipWith_cons_cons, ih]

theorem count_and_le_count_or :
    ∀ (a b : List Bool),
      (List.zipWith (fun x y => x && y) a b).count true
        ≤ (List.zipWith (fun x y => x || y) a b).count true := by
  intro a
  induction a with
  | nil => intro b; simp
  | cons x tl ih =>
    intro b
    cases b with
    | nil => simp
    | cons y tl' =>
      have h1 := ih tl'
      cases x <;> cases y <;>
        simp only [List.zipWith_cons_cons, List.count_cons, Bool.and_self, Bool.or_self,
          Bool.false_and, Bool.true_and, Bool.false_or, Bool.true_or, Bool.and_false,
          Bool.or_true, Bool.and_true, Bool.or_false] <;>
        simp <;> omega

theorem count_or_zero :
    ∀ (a b : List Bool), a.count true = 0 → b.count true = 0 →
      (List.zipWith (fun x y => x || y) a b).count true = 0 := by
  intro a
  induction a with
  | nil => intro b _ _; simp
  | cons x tl ih =>
    intro b ha hb
    cases b with
    | nil => simp
    | cons y tl' =>
      cases x with
      | true =>
        exfalso
        simp only [List.count_cons] at ha
        simp at ha
      | false =>
        cases y with
        | true =>
          exfalso
          simp only [List.count_cons] at hb
          simp at hb
        | false =>
          simp only [List.count_cons] at ha hb
          simp only [List.zipWith_cons_cons, Bool.or_self, List.count_cons]
          simp at ha hb ⊢
          exact ih tl' ha hb

/-- Error kinds of the engine (spec §7): `NotFound` for a direct query on a key
never created, `DimensionMismatch` for combining incompatible filters. -/
inductive SvcError where
  | NotFound
  | DimensionMismatch
deriving DecidableEq

instance {e a : Type} [DecidableEq e] [DecidableEq a] : DecidableEq (Except e a) :=
  fun x y => by
    cases x <;> cases y <;>
      first
        | (apply isFalse; intro h; exact Except.noConfusion h)
        | (rename_i u w
           exact match decEq u w with
             | isTrue h => isTrue (by rw [h])
             | isFalse h => isFalse (fun hc => h (by injection hc)))

namespace BitFilter

/-- Modelled from the spec: `CombineAND` — bit-wise AND of two filters of
identical `M` and `k`; fails with `DimensionMismatch` otherwise, producing no
partial result (spec §4.1, §7).  The embedding is pure, so the operand filters
are necessarily left unchanged. -/
def combineAND (f g : BitFilter) : Except SvcError BitFilter :=
  if f.bits.length = g.bits.length ∧ f.hashCount = g.hashCount then
    .ok ⟨List.zipWith (fun x y => x && y) f.bits g.bits, f.hashCount⟩
  else
    .error .DimensionMismatch

/-- Modelled from the spec: `CombineOR` — bit-wise OR of two filters of
identical `M` and `k`; fails with `DimensionMismatch` otherwise (spec §4.1, §7). -/
def combineOR (f g : BitFilter) : Except SvcError BitFilter :=
  if f.bits.length = g.bits.length ∧ f.hashCount = g.hashCount then
    .ok ⟨List.zipWith (fun x y => x || y) f.bits g.bits, f.hashCount⟩
  else
    .error .DimensionMismatch

end BitFilter

/-- Modelled from the spec: the defined saturation maximum of the bloom
cardinality estimate, to which `ApproxCardinality` clamps as the filter
approaches full (spec §4.1). -/
def bloomCardMax (M : Nat) : Nat := 16 * M

/-- Modelled from the spec: `ApproxCardinality()` solves the expected-set-bits
relationship for the insertion count `n` given the observed set-bit count
(spec §4.1): the estimate is the least `n` whose expected set-bit count
`M·(1 - (1 - 1/M)^(k·n))` reaches the observed count, clamped to the defined
maximum `bloomCardMax M` as the filter approaches full. -/
def BitFilter.approxCardinality (f : BitFilter) : Nat :=
  let M := f.bits.length
  let x := f.popCount
  match (List.range (bloomCardMax M + 1)).find?
      (fun n => decide ((1 - 1 / (M : ℚ)) ^ (f.hashCount * n) ≤ ((M : ℚ) - (x : ℚ)) / (M : ℚ))) with
  | some n => n
  | none => bloomCardMax M

/-- Modelled from the spec: a fixed rational truncation of the natural
logarithm's Mercator series about 1, standing in for the transcendental `ln`
used by the estimator's correction regimes (the missing `service` package is
not visible; only `lnQ 1 = 0` and the branch structure matter to the spec's
guarantees). -/
def lnQ (x : ℚ) : ℚ :=
  ((List.range 20).map fun i : Nat =>
    ((-1 : ℚ) ^ i * (x - 1) ^ (i + 1)) / ((i : ℚ) + 1)).sum

/-- Modelled from the spec: the estimator's theoretical ceiling, a sane
maximum to which the large-range-corrected value is clamped (spec §4.2). -/
def hllMax : ℚ := (2 : ℚ) ^ (32 : Nat)

/-- Modelled from the spec: the standard bias-correction constant of the
harmonic-mean estimator (spec §4.2), with the standard small-`m` special
cases. -/
def alphaQ (m : Nat) : ℚ :=
  if m = 16 then 673 / 1000
  else if m = 32 then 697 / 1000
  else if m = 64 then 709 / 1000
  else 7213 / 10000 / (1 + 1079 / (1000 * (m : ℚ)))

/-- Modelled from the spec: the raw bias-corrected harmonic-mean estimate over
all registers (spec §4.2). -/
def rawEstimate (regs : List Nat) : ℚ :=
  let m := regs.length
  alphaQ m * (m : ℚ) ^ 2 / ((regs.map fun r => (1 : ℚ) / 2 ^ r).sum)

/-- Modelled from the spec: the linear-counting correction used in the small
range when `V` registers are still zero (spec §4.2). -/
def linearCounting (m V : Nat) : ℚ := (m : ℚ) * lnQ ((m : ℚ) / (V : ℚ))

/-- Modelled from the spec: `Estimate()` applies the raw harmonic-mean
estimator with small-range (linear counting when some register is zero),
normal, and large-range correction regimes, the large-range value being
clamped to the ceiling `hllMax` (spec §4.2). -/
def hllEstimate (regs : List Nat) : ℚ :=
  let m := regs.length
  let E := rawEstimate regs
  let V := regs.count 0
  if E ≤ 5 / 2 * (m : ℚ) then
    (if 0 < V then linearCounting m V else E)
  else if E ≤ hllMax / 30 then E
  else if E < hllMax then min hllMax (-hllMax * lnQ (1 - E / hllMax))
  else hllMax

/-- Bit length of a natural number (0 for 0). -/
def bitLen (n : Nat) : Nat := if n = 0 then 0 else Nat.log2 n + 1

/-- Modelled from the spec: the estimator's `Add(value)` — hash the value to a
32-bit code, use the leading `p` bits (`p = log2 m`) to select a register,
count leading zero bits plus one of the remainder as the candidate rank, and
store the maximum of the current register and the candidate (spec §4.2). -/
def hllAdd (regs : List Nat) (v : String) : List Nat :=
  let p := Nat.log2 regs.length
  let w := 32 - p
  let h := hash32 v
  let idx := h / 2 ^ w
  let rank := w + 1 - bitLen (h % 2 ^ w)
  regs.set idx (max (regs.getD idx 0) rank)

/-- Modelled from the spec: the per-key Summary — one BitFilter, one estimator
register array and the dirty flag (spec §3). -/
structure Summary where
  filter : BitFilter
  registers : List Nat
  dirty : Bool
deriving DecidableEq

/-- Modelled from the spec: a fresh zero-state Summary (all bits and registers
clear) created lazily on first insert (spec §3). -/
def Summary.fresh (cfg : Config) : Summary :=
  ⟨BitFilter.emptyF cfg, List.replicate (2 ^ cfg.p) 0, false⟩

/-- Modelled from the spec: inserting a value into a Summary updates the
filter and the estimator and sets the dirty flag (spec §3). -/
def Summary.insertValue (s : Summary) (v : String) : Summary :=
  ⟨s.filter.insert v, hllAdd s.registers v, true⟩

/-- Modelled from the spec: the Summary Store, a mapping from key to Summary
(spec §3); the sequential embedding of the store is an association list. -/
abbrev Store := List (String × Summary)

/-- Modelled from the spec: `Snapshot(key)` — the Summary for a key, or
`none` (NotFound) for a key never created (spec §4.3). -/
def Snapshot : Store → String → Option Summary
  | [], _ => none
  | (k2, s) :: rest, key => if k2 = key then some s else Snapshot rest key

/-- Well-formedness of a store with respect to the configuration: every
stored filter has the configured dimensions `M` and `k`.  Every store built
from the empty store by inserts satisfies this. -/
def storeWF (cfg : Config) (st : Store) : Bool :=
  st.all fun e => e.2.filter.bits.length == cfg.m && e.2.filter.hashCount == cfg.k

/-- Modelled from the spec: the service insert `BloomHash(key, value)` —
get-or-create the key's Summary and insert the value into it (spec §4.3,
§6). -/
def BloomHash (cfg : Config) : Store → String → String → Store
  | [], key, v => [(key, (Summary.fresh cfg).insertValue v)]
  | (k2, s) :: rest, key, v =>
    if k2 = key then (k2, s.insertValue v) :: rest
    else (k2, s) :: BloomHash cfg rest key v

/-- A sequence of insert requests applied to a store in order. -/
def runInserts (cfg : Config) (st : Store) (ops : List (String × String)) : Store :=
  ops.foldl (fun acc kv => BloomHash cfg acc kv.1 kv.2) st

/-- Modelled from the spec: the direct membership query `Exists(key, value)`;
a key never created surfaces `NotFound` (spec §6, §7). -/
def BloomExists (st : Store) (key v : String) : Except SvcError Bool :=
  match Snapshot st key with
  | none => .error .NotFound
  | some s => .ok (s.filter.test v)

/-- The integer rendering of the estimator's rational estimate. -/
def hllEstimateNat (regs : List Nat) : Nat := (hllEstimate regs).floor.toNat

/-- Modelled from the spec: the direct query `Cardinality(key)`, returning
the pair of bloom and estimator cardinalities; a key never created surfaces
`NotFound` (spec §6, §7). -/
def BloomCardinality (st : Store) (key : String) : Except SvcError (Nat × Nat) :=
  match Snapshot st key with
  | none => .error .NotFound
  | some s => .ok (s.filter.approxCardinality, hllEstimateNat s.registers)

/-- Modelled from the spec: the per-key test used by the chaining
combination; an unknown key is treated as an absent filter whose `Test`
always returns false (spec §4.4). -/
def testKey (st : Store) (key v : String) : Bool :=
  match Snapshot st key with
  | none => false
  | some s => s.filter.test v

/-- The boolean operator of the combination queries (spec §4.4). -/
inductive Op where
  | AND
  | OR
deriving DecidableEq

/-- Modelled from the spec: `ChainingExists` — evaluate `Test(value)` against
each named key's filter individually in order, combining with the boolean
operator and short-circuiting; `List.all` / `List.any` are exactly this
short-circuiting fold (spec §4.4). -/
def BloomChainingExists (st : Store) (keys : List String) (v : String) (op : Op) : Bool :=
  match op with
  | .AND => keys.all fun key => testKey st key v
  | .OR => keys.any fun key => testKey st key v

/-- Modelled from the spec: fetching a named key's filter for the bitwise
combination; a key never created contributes the absent (zero-state) filter
of the configured dimensions. -/
def fetchFilter (cfg : Config) (st : Store) (key : String) : BitFilter :=
  match Snapshot st key with
  | none => BitFilter.emptyF cfg
  | some s => s.filter

/-- The pairwise filter combination selected by the operator. -/
def combineOp : Op → BitFilter → BitFilter → Except SvcError BitFilter
  | .AND => BitFilter.combineAND
  | .OR => BitFilter.combineOR

/-- Modelled from the spec: `BitwiseExists` — reduce the named keys' filters
pairwise with `CombineAND`/`CombineOR` into one composite filter (failing
with `DimensionMismatch` on incompatible dimensions) and test the value
against the composite; zero keys give the degenerate convention AND = true,
OR = false (spec §4.4). -/
def BloomBitwiseExists (cfg : Config) (st : Store) (keys : List String) (v : String)
    (op : Op) : Except SvcError Bool :=
  match keys with
  | [] => .ok (match op with | .AND => true | .OR => false)
  | key0 :: rest => do
    let comp ← rest.foldlM (fun acc key => combineOp op acc (fetchFilter cfg st key))
      (fetchFilter cfg st key0)
    pure (comp.test v)

/-- Modelled from the spec: `Similarity(keyA, keyB)` — the ratio of the
intersection population (`CombineAND` pop-count) to the union population
(`CombineOR` pop-count), defined as 1 when the union population is zero
(spec §4.4). -/
def BloomSimilarity (cfg : Config) (st : Store) (k1 k2 : String) : ℚ :=
  let f1 := fetchFilter cfg st k1
  let f2 := fetchFilter cfg st k2
  match f1.combineAND f2, f1.combineOR f2 with
  | .ok fi, .ok fu =>
    if fu.popCount = 0 then 1 else (fi.popCount : ℚ) / (fu.popCount : ℚ)
  | _, _ => 0

/- The HTTP boundary layer, embedded from src/unnamed/part_000.  A request
body is embedded as the outcome of JSON decoding: `none` when the body is not
valid JSON (json.Unmarshal fails), `some` of the decoded fields otherwise. -/

/-- The decoded body of the hash and exists endpoints: fields key, value. -/
structure HashBody where
  key : String
  value : String
deriving DecidableEq

/-- The decoded body of the sim endpoint: fields key_1, key_2. -/
structure SimBody where
  key1 : String
  key2 : String
deriving DecidableEq

/-- The decoded body of the bitwise and chaining endpoints: fields keys,
value, operator. -/
structure MultiBody where
  keys : List String
  value : String
  operator : String
deriving DecidableEq

/-- The observable HTTP response of a handler: a 200 with a body, a 400 with
an error message, or a 200 with no body written. -/
inductive HttpResp where
  | ok (body : String)
  | badRequest (msg : String)
  | noBody
deriving DecidableEq

/-- Rendering of a cardinality query result as the handler's output string.
Modelled from the spec for the NotFound case, whose rendering the visible
source does not show; it is embedded as an empty string. -/
def formatCard : Except SvcError (Nat × Nat) → String
  | .ok (b, h) => "Cardinality (bloom, hyperloglog) = (" ++ toString b ++ ", " ++ toString h ++ ")"
  | .error _ => ""

/-- Rendering of a boolean query result as the handler's output string.
Modelled from the spec for the error case, whose rendering the visible source
does not show; it is embedded as an empty string. -/
def formatBoolResult : Except SvcError Bool → String
  | .ok t => toString t
  | .error _ => ""

/-- Modelled from the spec: parsing of the wire operator string; values other
than AND are embedded as OR (the visible source passes the string through to
the missing service package). -/
def parseOp (s : String) : Op := if s = "AND" then .AND else .OR

/-- The bloomHash handler (src/unnamed/part_000): on an invalid JSON body it
responds 400 without touching the store; otherwise it inserts the value under
the key and responds with the key's cardinalities. -/
def bloomHash (cfg : Config) (st : Store) (body : Option HashBody) : Store × HttpResp :=
  match body with
  | none => (st, .badRequest "Invalid JSON body")
  | some b =>
    let st2 := BloomHash cfg st b.key b.value
    (st2, .ok (formatCard (BloomCardinality st2 b.key)))

/-- The bloomExists handler (src/unnamed/part_000): on an invalid JSON body it
responds 400 without touching the store; otherwise it answers the membership
query. -/
def bloomExists (st : Store) (body : Option HashBody) : Store × HttpResp :=
  match body with
  | none => (st, .badRequest "Invalid JSON body")
  | some b =>
    (st, .ok ("(" ++ b.value ++ ") ⪽ (" ++ b.key ++ ") = "
      ++ formatBoolResult (BloomExists st b.key b.value) ++ "\n"))

/-- The bloomCard handler (src/unnamed/part_000): it reads the key query
parameter (the empty string when the parameter is absent) and, only when the
key is non-empty, performs the cardinality lookup and writes the response
body; for an absent or empty key it writes nothing. -/
def bloomCard (st : Store) (key : String) : HttpResp :=
  if key ≠ "" then .ok (formatCard (BloomCardinality st key))
  else .noBody

/-- The bloomSim handler (src/unnamed/part_000): on an invalid JSON body it
responds 400 without touching the store; otherwise it answers the similarity
query. -/
def bloomSim (cfg : Config) (st : Store) (body : Option SimBody) : Store × HttpResp :=
  match body with
  | none => (st, .badRequest "Invalid JSON body")
  | some b =>
    (st, .ok ("Jaccard similarity = " ++ toString (BloomSimilarity cfg st b.key1 b.key2)))

/-- The bloomBitwiseExists handler (src/unnamed/part_000): on an invalid JSON
body it responds 400 without touching the store; otherwise it answers the
bitwise combination query. -/
def bloomBitwiseExists (cfg : Config) (st : Store) (body : Option MultiBody) :
    Store × HttpResp :=
  match body with
  | none => (st, .badRequest "Invalid JSON body")
  | some b =>
    (st, .ok (b.operator ++ " bitwise exists = "
      ++ formatBoolResult (BloomBitwiseExists cfg st b.keys b.value (parseOp b.operator))))

/-- The bloomChainingExists handler (src/unnamed/part_000): on an invalid JSON
body it responds 400 without touching the store; otherwise it answers the
chaining combination query. -/
def bloomChainingExists (st : Store) (body : Option MultiBody) :
    Store × HttpResp :=
  match body with
  | none => (st, .badRequest "Invalid JSON body")
  | some b =>
    (st, .ok (b.operator ++ " chaining exists = "
      ++ toString (BloomChainingExists st b.keys b.value (parseOp b.operator))))

/- The shutdown path, embedded from the cleanup function of
src/unnamed/part_000 together with the Durability Coordinator state machine
of spec §4.5. -/

/-- The Durability Coordinator's state machine phases (spec §4.5). -/
inductive CoordPhase where
  | Running
  | Draining
  | Stopped
deriving DecidableEq

/-- The actions the cleanup function performs after receiving the OS signal,
in source order (src/unnamed/part_000): close(service.StopAsyncBloomUpdate),
postgres.DbClient.Close(), close(osChan), os.Exit(0).  There is no action
that waits for the coordinator. -/
inductive ProcAction where
  | stopSignal
  | closeDb
  | closeOsChan
  | exitProc
deriving DecidableEq

/-- The cleanup function's action sequence, embedded from the source. -/
def cleanupActions : List ProcAction :=
  [.stopSignal, .closeDb, .closeOsChan, .exitProc]

/-- The joint state of the shutting-down process: the coordinator's phase
(modelled from spec §4.5), whether the stop broadcast has been sent, whether
the durable-store connection is still open, the cleanup actions not yet
executed, and whether the connection was ever closed while the coordinator
had not yet reached Stopped. -/
structure ShutdownState where
  phase : CoordPhase
  stopRequested : Bool
  dbOpen : Bool
  pending : List ProcAction
  closedBeforeStopped : Bool
deriving DecidableEq

/-- The state when the OS signal has just been received: coordinator Running,
connection open, all cleanup actions pending. -/
def initShutdown : ShutdownState :=
  ⟨.Running, false, true, cleanupActions, false⟩

/-- Modelled from the spec: one scheduling step of the Durability Coordinator
(spec §4.5): Running observes the broadcast and moves to Draining; Draining
completes its final flush pass and moves to Stopped. -/
def coordStep (s : ShutdownState) : ShutdownState :=
  match s.phase with
  | .Running => if s.stopRequested then { s with phase := .Draining } else s
  | .Draining => { s with phase := .Stopped }
  | .Stopped => s

/-- One scheduling step of the cleanup goroutine: execute its next pending
action (embedded from src/unnamed/part_000).  Closing the durable-store
connection records whether the coordinator had reached Stopped. -/
def procStep (s : ShutdownState) : ShutdownState :=
  match s.pending with
  | [] => s
  | a :: rest =>
    let s' := { s with pending := rest }
    match a with
    | .stopSignal => { s' with stopRequested := true }
    | .closeDb =>
      let s2 := { s' with dbOpen := false }
      { s2 with closedBeforeStopped := s2.closedBeforeStopped || decide (s2.phase ≠ .Stopped) }
    | .closeOsChan => s'
    | .exitProc => s'

/-- Which task the scheduler runs at a step. -/
inductive Actor where
  | proc
  | coord
deriving DecidableEq

/-- Running the shutdown under a given scheduler interleaving. -/
def shutdownRun (sched : List Actor) : ShutdownState :=
  sched.foldl (fun s a => match a with | .proc => procStep s | .coord => coordStep s)
    initShutdown

/- Lemmas about the filter operations. -/

theorem BitFilter.insert_bits_length (f : BitFilter) (v : String) :
    (f.insert v).bits.length = f.bits.length := by
  simp [BitFilter.insert, foldlSet_length]

theorem BitFilter.insert_hashCount (f : BitFilter) (v : String) :
    (f.insert v).hashCount = f.hashCount := rfl

theorem BitFilter.positions_insert (f : BitFilter) (v v' : String) :
    (f.insert v).positions v' = f.positions v' := by
  simp [BitFilter.positions, BitFilter.insert_bits_length, BitFilter.insert_hashCount]

theorem BitFilter.positions_lt (f : BitFilter) (v : String) (hM : 0 < f.bits.length) :
    ∀ q ∈ f.positions v, q < f.bits.length := by
  intro q hq
  simp only [BitFilter.positions, hashFamily, List.mem_map, List.mem_range] at hq
  obtain ⟨i, _, rfl⟩ := hq
  exact Nat.mod_lt _ hM

theorem BitFilter.test_insert_self (f : BitFilter) (v : String)
    (hM : 0 < f.bits.length) : (f.insert v).test v = true := by
  have hpos := BitFilter.positions_insert f v v
  simp only [BitFilter.test, hpos, List.all_eq_true]
  intro q hq
  have hlt : q < f.bits.length := BitFilter.positions_lt f v hM q hq
  simpa [BitFilter.insert] using
    foldlSet_sets (f.positions v) f.bits q hq hlt

theorem BitFilter.test_insert_mono (f : BitFilter) (v v' : String)
    (h : f.test v = true) : (f.insert v').test v = true := by
  simp only [BitFilter.test, BitFilter.positions_insert, List.all_eq_true] at h ⊢
  intro q hq
  have := h q hq
  simpa [BitFilter.insert] using
    foldlSet_mono (f.positions v') f.bits q this

theorem BitFilter.popCount_insert_pos (f : BitFilter) (v : String)
    (hM : 0 < f.bits.length) (hk : 0 < f.hashCount) : 0 < (f.insert v).popCount := by
  have hmem : (hash32 v + 0 * hash32b v) % f.bits.length ∈ f.positions v := by
    simp only [BitFilter.positions, hashFamily, List.mem_map, List.mem_range]
    exact ⟨0, hk, rfl⟩
  have hlt : (hash32 v + 0 * hash32b v) % f.bits.length < f.bits.length :=
    Nat.mod_lt _ hM
  have hset := foldlSet_sets (f.positions v) f.bits _ hmem hlt
  exact getD_true_count_pos _ _ (by simpa [BitFilter.insert, BitFilter.popCount] using hset)

/- Lemmas about the store operations. -/

theorem Snapshot_BloomHash_self (cfg : Config) :
    ∀ (st : Store) (key v : String),
      Snapshot (BloomHash cfg st key v) key
        = some (((Snapshot st key).getD (Summary.fresh cfg)).insertValue v) := by
  intro st
  induction st with
  | nil => intro key v; simp [BloomHash, Snapshot]
  | cons e rest ih =>
    intro key v
    obtain ⟨k2, s⟩ := e
    by_cases h : k2 = key
    · subst h
      simp [BloomHash, Snapshot]
    · simp [BloomHash, Snapshot, h, ih key v]

theorem Snapshot_BloomHash_ne (cfg : Config) :
    ∀ (st : Store) (key key' v : String), key' ≠ key →
      Snapshot (BloomHash cfg st key' v) key = Snapshot st key := by
  intro st
  induction st with
  | nil => intro key key' v h; simp [BloomHash, Snapshot, h]
  | cons e rest ih =>
    intro key key' v h
    obtain ⟨k2, s⟩ := e
    by_cases h2 : k2 = key'
    · subst h2
      simp [BloomHash, Snapshot, h]
    · by_cases h3 : k2 = key
      · subst h3
        simp [BloomHash, Snapshot, h2]
      · simp [BloomHash, Snapshot, h2, h3, ih key key' v h]

theorem Snapshot_mem :
    ∀ (st : Store) (key : String) (s : Summary), Snapshot st key = some s → (key, s) ∈ st := by
  intro st
  induction st with
  | nil => intro key s h; simp [Snapshot] at h
  | cons e rest ih =>
    intro key s h
    obtain ⟨k2, s2⟩ := e
    have heq : Snapshot ((k2, s2) :: rest) key
        = if k2 = key then some s2 else Snapshot rest key := rfl
    rw [heq] at h
    by_cases h2 : k2 = key
    · subst h2
      rw [if_pos rfl] at h
      injection h with h
      subst h
      exact List.mem_cons_self _ _
    · rw [if_neg h2] at h
      exact List.mem_cons_of_mem _ (ih key s h)

theorem storeWF_dims (cfg : Config) (st : Store) (key : String) (s : Summary)
    (hwf : storeWF cfg st = true) (hs : Snapshot st key = some s) :
    s.filter.bits.length = cfg.m ∧ s.filter.hashCount = cfg.k := by
  have hmem := Snapshot_mem st key s hs
  simp only [storeWF, List.all_eq_true] at hwf
  have := hwf _ hmem
  simp only [Bool.and_eq_true, beq_iff_eq] at this
  exact this

theorem storeWF_BloomHash (cfg : Config) :
    ∀ (st : Store) (key v : String), storeWF cfg st = true →
      storeWF cfg (BloomHash cfg st key v) = true := by
  intro st
  induction st with
  | nil =>
    intro key v _
    simp [BloomHash, storeWF, Summary.fresh, Summary.insertValue,
      BitFilter.insert_bits_length, BitFilter.insert_hashCount, BitFilter.emptyF]
  | cons e rest ih =>
    intro key v hwf
    obtain ⟨k2, s⟩ := e
    simp only [storeWF, List.all_cons, Bool.and_eq_true] at hwf
    have hdims := hwf.1
    simp only [Bool.and_eq_true, beq_iff_eq] at hdims
    have hb : BloomHash cfg ((k2, s) :: rest) key v
        = if k2 = key then (k2, s.insertValue v) :: rest
          else (k2, s) :: BloomHash cfg rest key v := rfl
    by_cases h : k2 = key
    · rw [hb, if_pos h]
      simp only [storeWF, List.all_cons, Bool.and_eq_true, beq_iff_eq]
      refine ⟨⟨?_, ?_⟩, ?_⟩
      · simpa [Summary.insertValue, BitFilter.insert_bits_length] using hdims.1
      · simpa [Summary.insertValue, BitFilter.insert_hashCount] using hdims.2
      · simpa [storeWF] using hwf.2
    · rw [hb, if_neg h]
      simp only [storeWF, List.all_cons, Bool.and_eq_true, beq_iff_eq]
      refine ⟨⟨hdims.1, hdims.2⟩, ?_⟩
      simpa [storeWF] using ih key v (by simpa [storeWF] using hwf.2)

/- Further supporting lemmas for the claims. -/

theorem Snapshot_runInserts_not_mem (cfg : Config) :
    ∀ (ops : List (String × String)) (st : Store) (K : String),
      K ∉ ops.map Prod.fst → Snapshot (runInserts cfg st ops) K = Snapshot st K := by
  intro ops
  induction ops with
  | nil => intro st K _; rfl
  | cons kv rest ih =>
    intro st K h
    simp only [List.map_cons, List.mem_cons] at h
    push_neg at h
    have hstep : runInserts cfg st (kv :: rest)
        = runInserts cfg (BloomHash cfg st kv.1 kv.2) rest := rfl
    rw [hstep, ih _ K h.2,
      Snapshot_BloomHash_ne cfg st K kv.1 kv.2 (fun he => h.1 he.symm)]

theorem tested_key_BloomHash_mono (cfg : Config) (st : Store) (K v K' v' : String)
    (h : ∃ s, Snapshot st K = some s ∧ s.filter.test v = true) :
    ∃ s, Snapshot (BloomHash cfg st K' v') K = some s ∧ s.filter.test v = true := by
  obtain ⟨s, hs, ht⟩ := h
  by_cases he : K' = K
  · subst he
    rw [Snapshot_BloomHash_self cfg st K' v']
    refine ⟨_, rfl, ?_⟩
    rw [hs]
    simpa [Summary.insertValue] using BitFilter.test_insert_mono s.filter v v' ht
  · rw [Snapshot_BloomHash_ne cfg st K K' v' he]
    exact ⟨s, hs, ht⟩

theorem tested_key_runInserts_mono (cfg : Config) :
    ∀ (ops : List (String × String)) (st : Store) (K v : String),
      (∃ s, Snapshot st K = some s ∧ s.filter.test v = true) →
      ∃ s, Snapshot (runInserts cfg st ops) K = some s ∧ s.filter.test v = true := by
  intro ops
  induction ops with
  | nil => intro st K v h; exact h
  | cons kv rest ih =>
    intro st K v h
    exact ih _ K v (tested_key_BloomHash_mono cfg st K v kv.1 kv.2 h)

theorem tested_key_BloomHash_self (cfg : Config) (st : Store) (K v : String)
    (hwf : storeWF cfg st = true) (hm : 0 < cfg.m) :
    ∃ s, Snapshot (BloomHash cfg st K v) K = some s ∧ s.filter.test v = true := by
  rw [Snapshot_BloomHash_self cfg st K v]
  refine ⟨_, rfl, ?_⟩
  cases hsn : Snapshot st K with
  | none =>
    simp only [hsn, Option.getD_none]
    have : (Summary.fresh cfg).filter.bits.length = cfg.m := by
      simp [Summary.fresh, BitFilter.emptyF]
    simpa [Summary.fresh, Summary.insertValue] using
      BitFilter.test_insert_self (Summary.fresh cfg).filter v (by rw [this]; exact hm)
  | some s =>
    simp only [hsn, Option.getD_some]
    have hdims := storeWF_dims cfg st K s hwf hsn
    simpa [Summary.insertValue] using
      BitFilter.test_insert_self s.filter v (by rw [hdims.1]; exact hm)

theorem fetchFilter_dims (cfg : Config) (st : Store) (key : String)
    (hwf : storeWF cfg st = true) :
    (fetchFilter cfg st key).bits.length = cfg.m
      ∧ (fetchFilter cfg st key).hashCount = cfg.k := by
  cases hsn : Snapshot st key with
  | none => simp [fetchFilter, hsn, BitFilter.emptyF]
  | some s =>
    have := storeWF_dims cfg st key s hwf hsn
    simp [fetchFilter, hsn, this.1, this.2]

theorem test_zipWith_or_left (f g : BitFilter) (v : String)
    (hl : f.bits.length = g.bits.length) (ht : f.test v = true) :
    BitFilter.test ⟨List.zipWith (fun x y => x || y) f.bits g.bits, f.hashCount⟩ v = true := by
  have hlen : (List.zipWith (fun x y => x || y) f.bits g.bits).length = f.bits.length := by
    simp [List.length_zipWith, hl]
  simp only [BitFilter.test, BitFilter.positions, List.all_eq_true] at ht ⊢
  simp only [hlen]
  intro q hq
  have hq' := ht q hq
  rw [zipWith_getD_or f.bits g.bits hl q, hq']
  simp

theorem bitwise_two_keys (cfg : Config) (st : Store) (K1 K2 v : String) (op : Op) :
    BloomBitwiseExists cfg st [K1, K2] v op
      = match combineOp op (fetchFilter cfg st K1) (fetchFilter cfg st K2) with
        | .ok comp => .ok (comp.test v)
        | .error e => .error e := by
  cases h : combineOp op (fetchFilter cfg st K1) (fetchFilter cfg st K2) with
  | error e =>
    simp [BloomBitwiseExists, List.foldlM_cons, List.foldlM_nil, h, Except.bind]
  | ok c =>
    simp [BloomBitwiseExists, List.foldlM_cons, List.foldlM_nil, h, Except.bind]

/- The claims. -/

/-- C1: the claim states that on a termination request the process waits for
the Durability Coordinator's `Stopped` state before closing the durable-store
connection, and that the connection is never closed while the coordinator is
`Running` or `Draining`.  The cleanup function of src/unnamed/part_000
broadcasts the stop signal and closes the connection on the very next
statement, with no join or wait in between; this theorem evaluates the
embedded shutdown system at two scheduler interleavings and shows the
connection being closed while the coordinator is still `Running`,
respectively `Draining`, refuting the claimed ordering on the code. -/
theorem c1_connection_closed_before_stopped :
    ((shutdownRun [.proc, .proc]).closedBeforeStopped = true
      ∧ (shutdownRun [.proc, .proc]).phase = CoordPhase.Running
      ∧ (shutdownRun [.proc, .proc]).dbOpen = false)
    ∧ ((shutdownRun [.proc, .coord, .proc]).closedBeforeStopped = true
      ∧ (shutdownRun [.proc, .coord, .proc]).phase = CoordPhase.Draining) := by
  decide

/-- C2: for a key never created (no insert was ever performed under it in the
whole request sequence), a direct cardinality or existence query surfaces
`NotFound`, while the chaining combination treats the key as an absent filter
whose test is false. -/
theorem c2_unknown_key_not_found (cfg : Config) (ops : List (String × String))
    (K v : String) (op : Op) (hK : K ∉ ops.map Prod.fst) :
    BloomCardinality (runInserts cfg [] ops) K = Except.error SvcError.NotFound
    ∧ BloomExists (runInserts cfg [] ops) K v = Except.error SvcError.NotFound
    ∧ testKey (runInserts cfg [] ops) K v = false
    ∧ BloomChainingExists (runInserts cfg [] ops) [K] v op = false := by
  have hsn : Snapshot (runInserts cfg [] ops) K = none := by
    rw [Snapshot_runInserts_not_mem cfg ops [] K hK]; rfl
  refine ⟨?_, ?_, ?_, ?_⟩
  · simp [BloomCardinality, hsn]
  · simp [BloomExists, hsn]
  · simp [testKey, hsn]
  · cases op <;> simp [BloomChainingExists, testKey, hsn]

/-- Witness for C2 at a concrete request sequence that never creates key B. -/
theorem c2_unknown_key_not_found_witness :
    "B" ∉ ([("A", "x"), ("A", "y")].map Prod.fst)
    ∧ (BloomCardinality (runInserts ⟨8, 2, 4⟩ [] [("A", "x"), ("A", "y")]) "B"
        = Except.error SvcError.NotFound
      ∧ BloomExists (runInserts ⟨8, 2, 4⟩ [] [("A", "x"), ("A", "y")]) "B" "x"
        = Except.error SvcError.NotFound
      ∧ testKey (runInserts ⟨8, 2, 4⟩ [] [("A", "x"), ("A", "y")]) "B" "x" = false
      ∧ BloomChainingExists (runInserts ⟨8, 2, 4⟩ [] [("A", "x"), ("A", "y")]) ["B"] "x"
          Op.OR = false) :=
  ⟨by decide, c2_unknown_key_not_found ⟨8, 2, 4⟩ [("A", "x"), ("A", "y")] "B" "x" Op.OR
    (by decide)⟩

/-- C3: for every value v inserted under key K, the direct existence query for
v under K answers true immediately after the insertion and still answers true
after any further sequence of inserts under K or any other keys (no false
negatives; the positive answer is monotone under subsequent inserts). -/
theorem c3_no_false_negatives (cfg : Config) (st : Store) (K v : String)
    (ops : List (String × String)) (hwf : storeWF cfg st = true) (hm : 0 < cfg.m) :
    BloomExists (runInserts cfg (BloomHash cfg st K v) ops) K v = Except.ok true := by
  have h0 := tested_key_BloomHash_self cfg st K v hwf hm
  have h1 := tested_key_runInserts_mono cfg ops (BloomHash cfg st K v) K v h0
  obtain ⟨s, hs, ht⟩ := h1
  simp [BloomExists, hs, ht]

/-- Witness for C3: insert alice under users, then further inserts under the
same and another key; the query still answers true. -/
theorem c3_no_false_negatives_witness :
    storeWF ⟨8, 2, 4⟩ [] = true ∧ 0 < (8 : Nat)
    ∧ BloomExists
        (runInserts ⟨8, 2, 4⟩ (BloomHash ⟨8, 2, 4⟩ [] "users" "alice")
          [("users", "bob"), ("carts", "c1")]) "users" "alice" = Except.ok true :=
  ⟨by decide, by decide,
    c3_no_false_negatives ⟨8, 2, 4⟩ [] "users" "alice" [("users", "bob"), ("carts", "c1")]
      (by decide) (by decide)⟩

/-- C4: the chaining combination at an empty key list returns true for AND
and false for OR; at a single-key list it returns exactly the plain per-key
test for either operator, and when the key exists this is exactly what the
direct existence query answers. -/
theorem c4_chaining_degenerate_cases (st : Store) (K v : String) (op : Op) (s : Summary) :
    BloomChainingExists st [] v Op.AND = true
    ∧ BloomChainingExists st [] v Op.OR = false
    ∧ BloomChainingExists st [K] v op = testKey st K v
    ∧ (Snapshot st K = some s →
        BloomExists st K v = Except.ok (BloomChainingExists st [K] v op)) := by
  refine ⟨rfl, rfl, ?_, ?_⟩
  · cases op <;> simp [BloomChainingExists]
  · intro hs
    cases op <;> simp [BloomChainingExists, BloomExists, testKey, hs]

/-- Witness for C4 at a concrete store holding key A. -/
theorem c4_chaining_degenerate_cases_witness :
    BloomChainingExists (BloomHash ⟨8, 2, 4⟩ [] "A" "x") [] "x" Op.AND = true
    ∧ BloomChainingExists (BloomHash ⟨8, 2, 4⟩ [] "A" "x") [] "x" Op.OR = false
    ∧ BloomChainingExists (BloomHash ⟨8, 2, 4⟩ [] "A" "x") ["A"] "x" Op.AND
        = testKey (BloomHash ⟨8, 2, 4⟩ [] "A" "x") "A" "x"
    ∧ (Snapshot (BloomHash ⟨8, 2, 4⟩ [] "A" "x") "A"
          = some ((Summary.fresh ⟨8, 2, 4⟩).insertValue "x") →
        BloomExists (BloomHash ⟨8, 2, 4⟩ [] "A" "x") "A" "x"
          = Except.ok (BloomChainingExists (BloomHash ⟨8, 2, 4⟩ [] "A" "x") ["A"] "x" Op.AND)) :=
  c4_chaining_degenerate_cases (BloomHash ⟨8, 2, 4⟩ [] "A" "x") "A" "x" Op.AND
    ((Summary.fresh ⟨8, 2, 4⟩).insertValue "x")

/-- C7: combining two filters whose size M or hash count k differ fails with
`DimensionMismatch` for both CombineAND and CombineOR with no partial
combination returned, and on matching dimensions both succeed with a newly
built filter; the embedding is pure, so the operand filters are left
unchanged in every case. -/
theorem c7_combine_dimension_mismatch (f g : BitFilter) :
    (¬(f.bits.length = g.bits.length ∧ f.hashCount = g.hashCount) →
      f.combineAND g = Except.error SvcError.DimensionMismatch
      ∧ f.combineOR g = Except.error SvcError.DimensionMismatch)
    ∧ (f.bits.length = g.bits.length ∧ f.hashCount = g.hashCount →
      f.combineAND g
          = Except.ok ⟨List.zipWith (fun x y => x && y) f.bits g.bits, f.hashCount⟩
      ∧ f.combineOR g
          = Except.ok ⟨List.zipWith (fun x y => x || y) f.bits g.bits, f.hashCount⟩) := by
  constructor
  · intro h
    constructor
    · simp only [BitFilter.combineAND]; rw [if_neg h]
    · simp only [BitFilter.combineOR]; rw [if_neg h]
  · intro h
    constructor
    · simp only [BitFilter.combineAND]; rw [if_pos h]
    · simp only [BitFilter.combineOR]; rw [if_pos h]

/-- Witness for C7: a mismatched pair fails, a matched pair succeeds. -/
theorem c7_combine_dimension_mismatch_witness :
    (BitFilter.combineAND ⟨[true], 1⟩ ⟨[true, false], 1⟩
        = Except.error SvcError.DimensionMismatch
      ∧ BitFilter.combineOR ⟨[true], 1⟩ ⟨[true, false], 1⟩
        = Except.error SvcError.DimensionMismatch)
    ∧ (BitFilter.combineAND ⟨[true], 1⟩ ⟨[false], 1⟩
        = Except.ok ⟨List.zipWith (fun x y => x && y) [true] [false], 1⟩
      ∧ BitFilter.combineOR ⟨[true], 1⟩ ⟨[false], 1⟩
        = Except.ok ⟨List.zipWith (fun x y => x || y) [true] [false], 1⟩) :=
  ⟨(c7_combine_dimension_mismatch ⟨[true], 1⟩ ⟨[true, false], 1⟩).1 (by decide),
    (c7_combine_dimension_mismatch ⟨[true], 1⟩ ⟨[false], 1⟩).2 (by decide)⟩

/-- C9: every POST handler of the boundary layer answers an invalid JSON body
with HTTP 400 and returns before invoking any service operation, so the store
is left exactly as it was. -/
theorem c9_invalid_json_rejected (cfg : Config) (st : Store) :
    bloomHash cfg st none = (st, HttpResp.badRequest "Invalid JSON body")
    ∧ bloomExists st none = (st, HttpResp.badRequest "Invalid JSON body")
    ∧ bloomSim cfg st none = (st, HttpResp.badRequest "Invalid JSON body")
    ∧ bloomBitwiseExists cfg st none = (st, HttpResp.badRequest "Invalid JSON body")
    ∧ bloomChainingExists st none = (st, HttpResp.badRequest "Invalid JSON body") :=
  ⟨rfl, rfl, rfl, rfl, rfl⟩

/-- C10: the card handler with an absent or empty key query parameter (the
empty string in the embedding, exactly what Go's Query().Get returns in both
cases) performs no cardinality lookup and writes no response body. -/
theorem c10_card_empty_key_writes_nothing (st : Store) :
    bloomCard st "" = HttpResp.noBody := by
  simp [bloomCard]

/-- C5: for any two keys and value, the bitwise combination under OR answers
true whenever the direct existence query answers true for either key: the
bitwise OR of the two filters can only add set bits, never remove a true
positive either individual filter would report. -/
theorem c5_bitwise_or_monotone (cfg : Config) (st : Store) (K1 K2 v : String)
    (hwf : storeWF cfg st = true)
    (h : BloomExists st K1 v = Except.ok true ∨ BloomExists st K2 v = Except.ok true) :
    BloomBitwiseExists cfg st [K1, K2] v Op.OR = Except.ok true := by
  have hd1 := fetchFilter_dims cfg st K1 hwf
  have hd2 := fetchFilter_dims cfg st K2 hwf
  have hl : (fetchFilter cfg st K1).bits.length = (fetchFilter cfg st K2).bits.length := by
    rw [hd1.1, hd2.1]
  have hc : (fetchFilter cfg st K1).hashCount = (fetchFilter cfg st K2).hashCount := by
    rw [hd1.2, hd2.2]
  have hcomb : combineOp Op.OR (fetchFilter cfg st K1) (fetchFilter cfg st K2)
      = Except.ok ⟨List.zipWith (fun x y => x || y) (fetchFilter cfg st K1).bits
          (fetchFilter cfg st K2).bits, (fetchFilter cfg st K1).hashCount⟩ := by
    simp only [combineOp, BitFilter.combineOR]
    rw [if_pos ⟨hl, hc⟩]
  have htest : BitFilter.test ⟨List.zipWith (fun x y => x || y) (fetchFilter cfg st K1).bits
      (fetchFilter cfg st K2).bits, (fetchFilter cfg st K1).hashCount⟩ v = true := by
    rcases h with h | h
    · cases hsn : Snapshot st K1 with
      | none => simp [BloomExists, hsn] at h
      | some s =>
        have hf1 : fetchFilter cfg st K1 = s.filter := by simp [fetchFilter, hsn]
        have ht : s.filter.test v = true := by simpa [BloomExists, hsn] using h
        rw [hf1]
        exact test_zipWith_or_left s.filter (fetchFilter cfg st K2) v
          (by rw [← hf1]; exact hl) ht
    · cases hsn : Snapshot st K2 with
      | none => simp [BloomExists, hsn] at h
      | some s =>
        have hf2 : fetchFilter cfg st K2 = s.filter := by simp [fetchFilter, hsn]
        have ht : (fetchFilter cfg st K2).test v = true := by
          rw [hf2]; simpa [BloomExists, hsn] using h
        have hflip := test_zipWith_or_left (fetchFilter cfg st K2) (fetchFilter cfg st K1)
          v hl.symm ht
        rw [zipWith_or_comm ((fetchFilter cfg st K2).bits) ((fetchFilter cfg st K1).bits),
          ← hc] at hflip
        exact hflip
  rw [bitwise_two_keys, hcomb]
  show Except.ok (BitFilter.test ⟨List.zipWith (fun x y => x || y)
    (fetchFilter cfg st K1).bits (fetchFilter cfg st K2).bits,
    (fetchFilter cfg st K1).hashCount⟩ v) = Except.ok true
  rw [htest]

/-- Witness for C5: with x inserted under A only, the bitwise OR over A and
the never-created key B still answers true for x. -/
theorem c5_bitwise_or_monotone_witness :
    storeWF ⟨8, 2, 4⟩ (BloomHash ⟨8, 2, 4⟩ [] "A" "x") = true
    ∧ (BloomExists (BloomHash ⟨8, 2, 4⟩ [] "A" "x") "A" "x" = Except.ok true
      ∨ BloomExists (BloomHash ⟨8, 2, 4⟩ [] "A" "x") "B" "x" = Except.ok true)
    ∧ BloomBitwiseExists ⟨8, 2, 4⟩ (BloomHash ⟨8, 2, 4⟩ [] "A" "x") ["A", "B"] "x" Op.OR
        = Except.ok true :=
  ⟨by decide, Or.inl (by decide),
    c5_bitwise_or_monotone ⟨8, 2, 4⟩ (BloomHash ⟨8, 2, 4⟩ [] "A" "x") "A" "B" "x"
      (by decide) (Or.inl (by decide))⟩

theorem sim_eval (cfg : Config) (st : Store) (K1 K2 : String)
    (hl : (fetchFilter cfg st K1).bits.length = (fetchFilter cfg st K2).bits.length)
    (hc : (fetchFilter cfg st K1).hashCount = (fetchFilter cfg st K2).hashCount) :
    BloomSimilarity cfg st K1 K2
      = (if (List.zipWith (fun x y => x || y) (fetchFilter cfg st K1).bits
            (fetchFilter cfg st K2).bits).count true = 0 then (1 : ℚ)
         else ((List.zipWith (fun x y => x && y) (fetchFilter cfg st K1).bits
            (fetchFilter cfg st K2).bits).count true : ℚ)
          / ((List.zipWith (fun x y => x || y) (fetchFilter cfg st K1).bits
            (fetchFilter cfg st K2).bits).count true : ℚ)) := by
  have hA : (fetchFilter cfg st K1).combineAND (fetchFilter cfg st K2)
      = Except.ok ⟨List.zipWith (fun x y => x && y) (fetchFilter cfg st K1).bits
          (fetchFilter cfg st K2).bits, (fetchFilter cfg st K1).hashCount⟩ := by
    simp only [BitFilter.combineAND]
    rw [if_pos ⟨hl, hc⟩]
  have hO : (fetchFilter cfg st K1).combineOR (fetchFilter cfg st K2)
      = Except.ok ⟨List.zipWith (fun x y => x || y) (fetchFilter cfg st K1).bits
          (fetchFilter cfg st K2).bits, (fetchFilter cfg st K1).hashCount⟩ := by
    simp only [BitFilter.combineOR]
    rw [if_pos ⟨hl, hc⟩]
  simp only [BloomSimilarity]
  rw [hA, hO]
  rfl

/-- C6: similarity is symmetric, lies in the unit interval, equals 1 when
both fetched filters are empty (zero union population), and equals 1 for a
pair of identical keys once at least one insertion has been performed under
the key. -/
theorem c6_similarity_properties (cfg : Config) (st : Store) (K1 K2 K v : String)
    (hwf : storeWF cfg st = true) (hm : 0 < cfg.m) (hk : 0 < cfg.k) :
    BloomSimilarity cfg st K1 K2 = BloomSimilarity cfg st K2 K1
    ∧ 0 ≤ BloomSimilarity cfg st K1 K2
    ∧ BloomSimilarity cfg st K1 K2 ≤ 1
    ∧ ((fetchFilter cfg st K1).popCount = 0 → (fetchFilter cfg st K2).popCount = 0 →
        BloomSimilarity cfg st K1 K2 = 1)
    ∧ BloomSimilarity cfg (BloomHash cfg st K v) K K = 1 := by
  have hd1 := fetchFilter_dims cfg st K1 hwf
  have hd2 := fetchFilter_dims cfg st K2 hwf
  have hl : (fetchFilter cfg st K1).bits.length = (fetchFilter cfg st K2).bits.length := by
    rw [hd1.1, hd2.1]
  have hc : (fetchFilter cfg st K1).hashCount = (fetchFilter cfg st K2).hashCount := by
    rw [hd1.2, hd2.2]
  have he12 := sim_eval cfg st K1 K2 hl hc
  have he21 := sim_eval cfg st K2 K1 hl.symm hc.symm
  refine ⟨?_, ?_, ?_, ?_, ?_⟩
  · rw [he12, he21,
      zipWith_or_comm ((fetchFilter cfg st K2).bits) ((fetchFilter cfg st K1).bits),
      zipWith_and_comm ((fetchFilter cfg st K2).bits) ((fetchFilter cfg st K1).bits)]
  · rw [he12]
    by_cases h0 : (List.zipWith (fun x y => x || y) (fetchFilter cfg st K1).bits
        (fetchFilter cfg st K2).bits).count true = 0
    · rw [if_pos h0]; norm_num
    · rw [if_neg h0]
      positivity
  · rw [he12]
    by_cases h0 : (List.zipWith (fun x y => x || y) (fetchFilter cfg st K1).bits
        (fetchFilter cfg st K2).bits).count true = 0
    · rw [if_pos h0]
    · rw [if_neg h0]
      rw [div_le_one (by positivity)]
      exact_mod_cast count_and_le_count_or ((fetchFilter cfg st K1).bits)
        ((fetchFilter cfg st K2).bits)
  · intro h1 h2
    rw [he12, if_pos (count_or_zero _ _ h1 h2)]
  · have hsn := Snapshot_BloomHash_self cfg st K v
    have hfetch : fetchFilter cfg (BloomHash cfg st K v) K
        = (((Snapshot st K).getD (Summary.fresh cfg)).insertValue v).filter := by
      simp [fetchFilter, hsn]
    have hbase_len : ((Snapshot st K).getD (Summary.fresh cfg)).filter.bits.length = cfg.m := by
      cases hs : Snapshot st K with
      | none => simp [Summary.fresh, BitFilter.emptyF]
      | some s => simpa using (storeWF_dims cfg st K s hwf hs).1
    have hbase_k : ((Snapshot st K).getD (Summary.fresh cfg)).filter.hashCount = cfg.k := by
      cases hs : Snapshot st K with
      | none => simp [Summary.fresh, BitFilter.emptyF]
      | some s => simpa using (storeWF_dims cfg st K s hwf hs).2
    have hpop : 0 < (fetchFilter cfg (BloomHash cfg st K v) K).popCount := by
      rw [hfetch]
      exact BitFilter.popCount_insert_pos _ v (by rw [hbase_len]; exact hm)
        (by rw [hbase_k]; exact hk)
    rw [sim_eval cfg (BloomHash cfg st K v) K K rfl rfl, zipWith_or_self, zipWith_and_self]
    have hne : ((fetchFilter cfg (BloomHash cfg st K v) K).bits.count true) ≠ 0 := by
      have : (fetchFilter cfg (BloomHash cfg st K v) K).popCount
          = (fetchFilter cfg (BloomHash cfg st K v) K).bits.count true := rfl
      omega
    rw [if_neg hne]
    exact div_self (by exact_mod_cast hne)

/-- Witness for C6 at a concrete store with one insertion under each key. -/
theorem c6_similarity_properties_witness :
    storeWF ⟨8, 2, 4⟩ (BloomHash ⟨8, 2, 4⟩ (BloomHash ⟨8, 2, 4⟩ [] "A" "x") "B" "y") = true
    ∧ 0 < (8 : Nat) ∧ 0 < (2 : Nat)
    ∧ (BloomSimilarity ⟨8, 2, 4⟩
          (BloomHash ⟨8, 2, 4⟩ (BloomHash ⟨8, 2, 4⟩ [] "A" "x") "B" "y") "A" "B"
        = BloomSimilarity ⟨8, 2, 4⟩
          (BloomHash ⟨8, 2, 4⟩ (BloomHash ⟨8, 2, 4⟩ [] "A" "x") "B" "y") "B" "A"
      ∧ 0 ≤ BloomSimilarity ⟨8, 2, 4⟩
          (BloomHash ⟨8, 2, 4⟩ (BloomHash ⟨8, 2, 4⟩ [] "A" "x") "B" "y") "A" "B"
      ∧ BloomSimilarity ⟨8, 2, 4⟩
          (BloomHash ⟨8, 2, 4⟩ (BloomHash ⟨8, 2, 4⟩ [] "A" "x") "B" "y") "A" "B" ≤ 1
      ∧ ((fetchFilter ⟨8, 2, 4⟩
            (BloomHash ⟨8, 2, 4⟩ (BloomHash ⟨8, 2, 4⟩ [] "A" "x") "B" "y") "A").popCount = 0 →
          (fetchFilter ⟨8, 2, 4⟩
            (BloomHash ⟨8, 2, 4⟩ (BloomHash ⟨8, 2, 4⟩ [] "A" "x") "B" "y") "B").popCount = 0 →
          BloomSimilarity ⟨8, 2, 4⟩
            (BloomHash ⟨8, 2, 4⟩ (BloomHash ⟨8, 2, 4⟩ [] "A" "x") "B" "y") "A" "B" = 1)
      ∧ BloomSimilarity ⟨8, 2, 4⟩
          (BloomHash ⟨8, 2, 4⟩
            (BloomHash ⟨8, 2, 4⟩ (BloomHash ⟨8, 2, 4⟩ [] "A" "x") "B" "y") "C" "z")
          "C" "C" = 1) :=
  ⟨by decide, by decide, by decide,
    c6_similarity_properties ⟨8, 2, 4⟩
      (BloomHash ⟨8, 2, 4⟩ (BloomHash ⟨8, 2, 4⟩ [] "A" "x") "B" "y") "A" "B" "C" "z"
      (by decide) (by decide) (by decide)⟩

/- Arithmetic lemmas for the cardinality estimators (claim C8). -/

theorem lnQ_one : lnQ 1 = 0 := by
  simp only [lnQ]
  apply List.sum_eq_zero
  intro x hx
  simp only [List.mem_map] at hx
  obtain ⟨i, _, rfl⟩ := hx
  norm_num

theorem alphaQ_le_five_halves (m : Nat) : alphaQ m ≤ 5 / 2 := by
  unfold alphaQ
  split_ifs
  · norm_num
  · norm_num
  · norm_num
  · have hd : (1 : ℚ) ≤ 1 + 1079 / (1000 * (m : ℚ)) := by
      have h0 : (0 : ℚ) ≤ 1079 / (1000 * (m : ℚ)) := by positivity
      linarith
    calc (7213 / 10000 : ℚ) / (1 + 1079 / (1000 * (m : ℚ)))
        ≤ 7213 / 10000 := div_le_self (by norm_num) hd
      _ ≤ 5 / 2 := by norm_num

theorem alphaQ_ge_half (m : Nat) (hm : 4 ≤ m) : 1 / 2 ≤ alphaQ m := by
  unfold alphaQ
  split_ifs
  · norm_num
  · norm_num
  · norm_num
  · have hmq : (4 : ℚ) ≤ (m : ℚ) := by exact_mod_cast hm
    have hden_pos : (0 : ℚ) < 1 + 1079 / (1000 * (m : ℚ)) := by positivity
    have hstep : 1079 / (1000 * (m : ℚ)) ≤ 1079 / 4000 := by
      apply div_le_div_of_nonneg_left (by norm_num) (by norm_num)
      nlinarith
    have hD : 1 + 1079 / (1000 * (m : ℚ)) ≤ 1 + 1079 / 4000 := by linarith
    calc (1 / 2 : ℚ)
        ≤ (7213 / 10000) / (1 + 1079 / 4000) := by norm_num
      _ ≤ (7213 / 10000) / (1 + 1079 / (1000 * (m : ℚ))) :=
          div_le_div_of_nonneg_left (by norm_num) hden_pos hD

theorem rawEstimate_replicate (m r : Nat) (hm : 0 < m) :
    rawEstimate (List.replicate m r) = alphaQ m * (m : ℚ) * 2 ^ r := by
  have hmq : ((m : ℚ)) ≠ 0 := by
    exact_mod_cast Nat.pos_iff_ne_zero.mp hm
  have h2r : ((2 : ℚ) ^ r) ≠ 0 := by positivity
  simp only [rawEstimate, List.map_replicate, List.sum_replicate, List.length_replicate,
    nsmul_eq_mul]
  field_simp
  ring

theorem find_result_le (bound : Nat) (p : Nat → Bool) :
    (match (List.range (bound + 1)).find? p with
      | some n => n
      | none => bound) ≤ bound := by
  cases hfind : (List.range (bound + 1)).find? p with
  | none => simp
  | some n =>
    have hmem := List.mem_of_find?_eq_some hfind
    have := List.mem_range.mp hmem
    simp only []
    omega

theorem find_result_none (bound : Nat) (p : Nat → Bool)
    (h : ∀ n ∈ List.range (bound + 1), ¬p n = true) :
    (match (List.range (bound + 1)).find? p with
      | some n => n
      | none => bound) = bound := by
  rw [List.find?_eq_none.mpr h]

theorem approxCardinality_le (f : BitFilter) :
    f.approxCardinality ≤ bloomCardMax f.bits.length :=
  find_result_le (bloomCardMax f.bits.length) _

theorem approxCardinality_full (f : BitFilter) (hf : f.popCount = f.bits.length)
    (h2 : 2 ≤ f.bits.length) : f.approxCardinality = bloomCardMax f.bits.length := by
  have hp : ∀ n ∈ List.range (bloomCardMax f.bits.length + 1),
      ¬(decide ((1 - 1 / (f.bits.length : ℚ)) ^ (f.hashCount * n)
        ≤ ((f.bits.length : ℚ) - (f.popCount : ℚ)) / (f.bits.length : ℚ))) = true := by
    intro n _
    simp only [decide_eq_true_eq]
    intro hcon
    have hMq : (2 : ℚ) ≤ (f.bits.length : ℚ) := by exact_mod_cast h2
    have hxM : ((f.bits.length : ℚ) - (f.popCount : ℚ)) = 0 := by rw [hf]; ring
    rw [hxM, zero_div] at hcon
    have hhalf : 1 / (f.bits.length : ℚ) ≤ 1 / 2 :=
      div_le_div_of_nonneg_left (by norm_num) (by norm_num) hMq
    have hpos : (0 : ℚ) < 1 - 1 / (f.bits.length : ℚ) := by linarith
    have := pow_pos hpos (f.hashCount * n)
    linarith
  exact find_result_none _ _ hp

theorem hllEstimate_zero (m : Nat) (hm : 0 < m) : hllEstimate (List.replicate m 0) = 0 := by
  have hmq : ((m : ℚ)) ≠ 0 := by exact_mod_cast Nat.pos_iff_ne_zero.mp hm
  have hE : rawEstimate (List.replicate m 0) = alphaQ m * (m : ℚ) := by
    simpa using rawEstimate_replicate m 0 hm
  have hcond : rawEstimate (List.replicate m 0) ≤ 5 / 2 * (m : ℚ) := by
    rw [hE]
    have hα := alphaQ_le_five_halves m
    have hm0 : (0 : ℚ) ≤ (m : ℚ) := by positivity
    nlinarith
  simp only [hllEstimate, List.length_replicate]
  rw [if_pos hcond]
  have hcount : (List.replicate m 0).count 0 = m := by simp
  rw [hcount, if_pos hm]
  unfold linearCounting
  rw [div_self hmq, lnQ_one, mul_zero]

theorem hllEstimate_saturated (b : Nat) (hb2 : 2 ≤ b) (hb28 : b ≤ 28) :
    hllEstimate (List.replicate (2 ^ b) (33 - b)) = hllMax := by
  have hmpos : 0 < 2 ^ b := Nat.pos_pow_of_pos b (by norm_num)
  have hcast : (((2 : Nat) ^ b : Nat) : ℚ) = (2 : ℚ) ^ b := by push_cast; ring
  have hE : rawEstimate (List.replicate (2 ^ b) (33 - b))
      = alphaQ (2 ^ b) * (2 : ℚ) ^ 33 := by
    rw [rawEstimate_replicate (2 ^ b) (33 - b) hmpos, hcast, mul_assoc, ← pow_add]
    have hbsum : b + (33 - b) = 33 := by omega
    rw [hbsum]
  have h4le : 4 ≤ 2 ^ b := by
    calc 4 = 2 ^ 2 := by norm_num
      _ ≤ 2 ^ b := Nat.pow_le_pow_right (by norm_num) hb2
  have hα_ge : 1 / 2 ≤ alphaQ (2 ^ b) := alphaQ_ge_half (2 ^ b) h4le
  have hE_ge : (2 : ℚ) ^ 32 ≤ rawEstimate (List.replicate (2 ^ b) (33 - b)) := by
    rw [hE]
    calc (2 : ℚ) ^ 32 = (1 / 2) * 2 ^ 33 := by norm_num
      _ ≤ alphaQ (2 ^ b) * 2 ^ 33 := mul_le_mul_of_nonneg_right hα_ge (by positivity)
  have hble : ((2 : ℚ)) ^ b ≤ 2 ^ 28 := pow_le_pow_right₀ (by norm_num) hb28
  have h1 : ¬rawEstimate (List.replicate (2 ^ b) (33 - b)) ≤ 5 / 2 * ((2 ^ b : Nat) : ℚ) := by
    rw [hcast]
    intro hcon
    have hup : (5 / 2 : ℚ) * (2 : ℚ) ^ b ≤ 5 / 2 * 2 ^ 28 := by nlinarith
    have : (5 / 2 : ℚ) * 2 ^ 28 < 2 ^ 32 := by norm_num
    linarith
  have h2 : ¬rawEstimate (List.replicate (2 ^ b) (33 - b)) ≤ hllMax / 30 := by
    intro hcon
    have : hllMax / 30 < (2 : ℚ) ^ 32 := by unfold hllMax; norm_num
    linarith
  have h3 : ¬rawEstimate (List.replicate (2 ^ b) (33 - b)) < hllMax := by
    intro hcon
    have : hllMax = (2 : ℚ) ^ 32 := rfl
    linarith
  simp only [hllEstimate, List.length_replicate]
  rw [if_neg h1, if_neg h2, if_neg h3]

/-- C8: the cardinality estimates never produce an invalid number: the bloom
estimate is a natural number bounded by the defined maximum for every filter
and equals that clamp exactly when the filter is full (all bits set), and the
register estimator returns 0 on all-zero registers and the clamped
large-range ceiling on fully saturated registers, without failing in either
case. -/
theorem c8_estimates_safe (g f : BitFilter) (m b : Nat) (hm : 0 < m)
    (hb2 : 2 ≤ b) (hb28 : b ≤ 28) (hf : f.popCount = f.bits.length)
    (hlen : 2 ≤ f.bits.length) :
    g.approxCardinality ≤ bloomCardMax g.bits.length
    ∧ f.approxCardinality = bloomCardMax f.bits.length
    ∧ hllEstimate (List.replicate m 0) = 0
    ∧ hllEstimate (List.replicate (2 ^ b) (33 - b)) = hllMax :=
  ⟨approxCardinality_le g, approxCardinality_full f hf hlen,
    hllEstimate_zero m hm, hllEstimate_saturated b hb2 hb28⟩

/-- Witness for C8 with a half-full filter, a full filter, sixteen zero
registers and sixteen saturated registers. -/
theorem c8_estimates_safe_witness :
    0 < (16 : Nat) ∧ 2 ≤ (4 : Nat) ∧ (4 : Nat) ≤ 28
    ∧ BitFilter.popCount ⟨[true, true], 2⟩ = (BitFilter.bits ⟨[true, true], 2⟩).length
    ∧ 2 ≤ (BitFilter.bits ⟨[true, true], 2⟩).length
    ∧ (BitFilter.approxCardinality ⟨[false, true], 1⟩
        ≤ bloomCardMax (BitFilter.bits ⟨[false, true], 1⟩).length
      ∧ BitFilter.approxCardinality ⟨[true, true], 2⟩
        = bloomCardMax (BitFilter.bits ⟨[true, true], 2⟩).length
      ∧ hllEstimate (List.replicate 16 0) = 0
      ∧ hllEstimate (List.replicate (2 ^ 4) (33 - 4)) = hllMax) :=
  ⟨by decide, by decide, by decide, by decide, by decide,
    c8_estimates_safe ⟨[false, true], 1⟩ ⟨[true, true], 2⟩ 16 4 (by decide) (by decide)
      (by decide) (by decide) (by decide)⟩
